import Mathlib

/-!
A shallow embedding of `express.py`, a minimal symbolic-expression engine:
expression nodes (numbers, symbols, negation, n-ary sums and products,
deferred partial derivatives, tensors), the `express` coercion from host
values, operator-overload construction (`__neg__`, `__add__`, `__mul__`),
evaluation under a variable-binding environment, symbolic differentiation,
inner products and transposition.

Host (Python) values are modeled by `PyVal`, raised exceptions by
`Except PyErr`, and possible nontermination of `eval` by a fuel parameter
(`none` means the computation does not finish within the given recursion
budget; a result that is `none` for every budget diverges).  Numeric
scalars are modeled as integers.
-/

namespace Express

/-- Python exceptions raised by the engine: `TypeError` (unsupported
coercion input or unsupported operand types), `AssertionError` with its
message (the source uses bare `assert` statements for its contract
checks), `AttributeError` (method or property access on a non-node
operand), and `ValueError` (NumPy truth-value/shape errors). -/
inductive PyErr where
  | typeError : PyErr
  | assertionError : String → PyErr
  | attributeError : PyErr
  | valueError : PyErr
deriving DecidableEq

/-- Expression nodes of `express.py`.  `hostNum` is a raw Python number
sitting in node-operand position: the source stores unwrapped numbers in
operand slots through its arithmetic overloads (for example
`Expression.__add__(n, e)` reached via `__radd__` builds `Add(n, e)` with
the bare `int` `n` as an operand, and a bare `Derivative` multiplied by a
number attaches that raw number as its `arg`).  Method access on such an
operand raises `AttributeError`. -/
inductive Expr where
  | Number : Int → Expr
  | Symbol : String → Expr
  | Negative : Expr → Expr
  | Add : List Expr → Expr
  | Multiply : List Expr → Expr
  | Derivative : Expr → Option Expr → Expr
  | Tensor : List Expr → Expr
  | hostNum : Int → Expr

/-- Host values crossing the engine boundary.  `list` covers Python lists
and tuples (the source treats them identically); `arr` is a NumPy array;
`pyNone` is `None`, an example of a type the coercion does not accept. -/
inductive PyVal where
  | int : Int → PyVal
  | str : String → PyVal
  | list : List PyVal → PyVal
  | arr : List PyVal → PyVal
  | pyNone : PyVal
  | expr : Expr → PyVal

/-- Python `node == k` for an integer literal `k` (the `== 0` / `== 1`
shortcut tests of the operator overloads): `Number.__eq__` compares the
stored value, a raw number compares as itself, and every other node kind
has no `__eq__`, falling back to object identity, which never equates a
node with an `int`. -/
def eqInt : Expr → Int → Bool
  | .Number v, k => v == k
  | .hostNum n, k => n == k
  | _, _ => false

/-- `isinstance(e, Tensor)`. -/
def isTensor : Expr → Bool
  | .Tensor _ => true
  | _ => false

/-- `shape`: `()` for scalar nodes, `(len(args),) + args[0].shape` for a
`Tensor`.  An empty tensor is rejected at construction; its shape here is
an unreachable placeholder. -/
def shape : Expr → List Nat
  | .Tensor [] => [0]
  | .Tensor (a :: as) => (a :: as).length :: shape a
  | _ => []

/-- `order`: 0 for scalar nodes, `args[0].order + 1` for a `Tensor` (the
empty-tensor value is an unreachable placeholder, as in `shape`). -/
def order : Expr → Nat
  | .Tensor [] => 1
  | .Tensor (a :: _) => order a + 1
  | _ => 0

/-- Word accumulator for Python `str.split()`: `cur` is the reversed
current word; whitespace flushes it, other characters extend it. -/
def wordsAux : List Char → List Char → List (List Char)
  | cur, [] => if cur.isEmpty then [] else [cur.reverse]
  | cur, c :: cs =>
      if c.isWhitespace then
        if cur.isEmpty then wordsAux [] cs
        else cur.reverse :: wordsAux [] cs
      else wordsAux (c :: cur) cs

/-- Python `str.split()` with no separator: split on whitespace runs,
producing no empty pieces. -/
def pyTokens (s : String) : List String :=
  (wordsAux [] s.data).map fun w => ⟨w⟩

/-- Property/iteration access that requires an actual node: accessing
`.shape` (or iterating) on a non-node element raises `AttributeError`. -/
def asExprPy : PyVal → Except PyErr Expr
  | .expr e => .ok e
  | _ => .error .attributeError

/-- `asExprPy` over a list, left to right, first exception wins. -/
def asExprList : List PyVal → Except PyErr (List Expr)
  | [] => .ok []
  | c :: cs => do
      let e ← asExprPy c
      let es ← asExprList cs
      .ok (e :: es)

/-- The body of `Tensor.__init__` after coercion of the elements:
`assert len(self.args) > 0` and then
`assert len(set(a.shape for a in self.args)) == 1`.  Shape access on a
coerced element that is not a single node (a multi-token string coerces
to a Python list of Symbols) raises `AttributeError` while the shape set
is built. -/
def mkTensorChecks (coerced : List PyVal) : Except PyErr Expr :=
  match coerced with
  | [] => .error (.assertionError "cannot create empty tensor")
  | c :: cs => do
      let e0 ← asExprPy c
      let es ← asExprList cs
      if es.all (fun e => shape e == shape e0) then .ok (.Tensor (e0 :: es))
      else .error (.assertionError "tensor components must be same shape")

mutual

/-- The coercion function `express`: a node is returned unchanged, a
list/tuple becomes a Tensor of coerced elements, a string becomes one
Symbol (one token) or a Python list of Symbols (several tokens), a
numeric scalar becomes a `Number`; anything else — including a string
with no tokens — raises `TypeError`. -/
def expressDef : PyVal → Except PyErr PyVal
  | .expr e => .ok (.expr e)
  | .list l => do
      let c ← expressList l
      let t ← mkTensorChecks c
      .ok (.expr t)
  | .str s =>
      let toks := pyTokens s
      if toks.length > 1 then .ok (.list (toks.map (fun t => .expr (.Symbol t))))
      else
        match toks with
        | [t] => .ok (.expr (.Symbol t))
        | _ => .error .typeError
  | .int n => .ok (.expr (.Number n))
  | .arr _ => .error .typeError
  | .pyNone => .error .typeError

/-- `[express(a) for a in args]`, left to right, first exception wins. -/
def expressList : List PyVal → Except PyErr (List PyVal)
  | [] => .ok []
  | v :: vs => do
      let c ← expressDef v
      let cs ← expressList vs
      .ok (c :: cs)

end

/-- `Tensor(args)`: coerce every element with `express`, then run the
length and shape assertions. -/
def mkTensor (vals : List PyVal) : Except PyErr Expr := do
  let c ← expressList vals
  mkTensorChecks c

mutual

/-- `Expression.__neg__`: a node equal to 0 negates to itself, a tensor
negates elementwise, anything else is wrapped in `Negative`.  (A tensor
never passes the `self == 0` test, since only `Number` has an `__eq__`,
so the zero shortcut is checked only on the scalar arm.) -/
def hneg : Expr → Except PyErr Expr
  | .Tensor as => do
      let ns ← hnegList as
      mkTensor (ns.map .expr)
  | e =>
    if eqInt e 0 then .ok e
    else .ok (.Negative e)
termination_by e => sizeOf e

/-- `[-a for a in self]`. -/
def hnegList : List Expr → Except PyErr (List Expr)
  | [] => .ok []
  | a :: as => do
      let n ← hneg a
      let ns ← hnegList as
      .ok (n :: ns)
termination_by l => sizeOf l

end

mutual

/-- `Expression.__add__` between two nodes: a 0 operand is dropped, two
tensors add elementwise after the shape assertion, a tensor and a scalar
broadcast, and otherwise a two-operand `Add` node is built.  The source's
`other == 0` / `self == 0` shortcuts can hold only for non-tensor
operands (only `Number` has an `__eq__`), so each arm below keeps exactly
the shortcut tests that can fire on it. -/
def hadd : Expr → Expr → Except PyErr Expr
  | .Tensor as, .Tensor bs =>
      if shape (.Tensor as) == shape (.Tensor bs) then do
        let cs ← haddZip as bs
        mkTensor (cs.map .expr)
      else .error (.assertionError "cannot add tensors of different shapes")
  | .Tensor as, b =>
      if eqInt b 0 then .ok (.Tensor as)
      else do
        let cs ← haddMapR as b
        mkTensor (cs.map .expr)
  | a, .Tensor bs =>
      if eqInt a 0 then .ok (.Tensor bs)
      else do
        let cs ← haddMapL a bs
        mkTensor (cs.map .expr)
  | a, b =>
      if eqInt b 0 then .ok a
      else if eqInt a 0 then .ok b
      else .ok (.Add [a, b])
termination_by a b => sizeOf a + sizeOf b

/-- `[a + b for a, b in zip(self, other)]` (`zip` truncates to the
shorter operand). -/
def haddZip : List Expr → List Expr → Except PyErr (List Expr)
  | a :: as, b :: bs => do
      let c ← hadd a b
      let cs ← haddZip as bs
      .ok (c :: cs)
  | _, _ => .ok []
termination_by as bs => sizeOf as + sizeOf bs

/-- `[a + other for a in self]`. -/
def haddMapR : List Expr → Expr → Except PyErr (List Expr)
  | [], _ => .ok []
  | a :: as, b => do
      let c ← hadd a b
      let cs ← haddMapR as b
      .ok (c :: cs)
termination_by as b => sizeOf as + sizeOf b

/-- `[self + b for b in other]`. -/
def haddMapL : Expr → List Expr → Except PyErr (List Expr)
  | _, [] => .ok []
  | a, b :: bs => do
      let c ← hadd a b
      let cs ← haddMapL a bs
      .ok (c :: cs)
termination_by a bs => sizeOf a + sizeOf bs

end

mutual

/-- Python `*` between two nodes.  `Derivative.__mul__` is checked first:
a bare derivative attaches its operand as the argument (before any other
test, including the two-tensor assertion).  Otherwise
`Expression.__mul__` runs: two tensors are rejected, a 1 operand is
dropped, a tensor broadcasts over a scalar, a 0 operand is returned, and
otherwise a two-operand `Multiply` node is built.  As in `hadd`, the
`== 1` / `== 0` shortcuts can hold only for non-tensor operands, so each
arm keeps exactly the tests that can fire on it. -/
def hmul : Expr → Expr → Except PyErr Expr
  | .Derivative w none, b => .ok (.Derivative w (some b))
  | .Tensor _, .Tensor _ => .error (.assertionError "cannot multiply two tensors")
  | .Tensor as, b =>
      if eqInt b 1 then .ok (.Tensor as)
      else do
        let cs ← hmulMapR as b
        mkTensor (cs.map .expr)
  | a, .Tensor bs =>
      if eqInt a 1 then .ok (.Tensor bs)
      else do
        let cs ← hmulMapL a bs
        mkTensor (cs.map .expr)
  | a, b =>
      if eqInt b 1 then .ok a
      else if eqInt a 1 then .ok b
      else if eqInt b 0 then .ok b
      else if eqInt a 0 then .ok a
      else .ok (.Multiply [a, b])
termination_by a b => sizeOf a + sizeOf b

/-- `[a * other for a in self]`. -/
def hmulMapR : List Expr → Expr → Except PyErr (List Expr)
  | [], _ => .ok []
  | a :: as, b => do
      let c ← hmul a b
      let cs ← hmulMapR as b
      .ok (c :: cs)
termination_by as b => sizeOf as + sizeOf b

/-- `[self * a for a in other]`. -/
def hmulMapL : Expr → List Expr → Except PyErr (List Expr)
  | _, [] => .ok []
  | a, b :: bs => do
      let c ← hmul a b
      let cs ← hmulMapL a bs
      .ok (c :: cs)
termination_by a bs => sizeOf a + sizeOf bs

end

/-- `[a * b for a, b in zip(self, other)]` (used by `inner`; `zip`
truncates to the shorter operand). -/
def mulZip : List Expr → List Expr → Except PyErr (List Expr)
  | a :: as, b :: bs => do
      let p ← hmul a b
      let ps ← mulZip as bs
      .ok (p :: ps)
  | _, _ => .ok []

mutual

/-- `node + n` for a raw Python number `n`: `Expression.__add__(e, n)`.
A zero `n` is dropped, a zero node yields the raw number back, a tensor
broadcasts, and otherwise an `Add` node holding the raw number is
built. -/
def exprAddInt : Expr → Int → Except PyErr PyVal
  | .Tensor as, n =>
      if n == 0 then .ok (.expr (.Tensor as))
      else do
        let cs ← exprAddIntList as n
        let t ← mkTensor cs
        .ok (.expr t)
  | e, n =>
      if n == 0 then .ok (.expr e)
      else if eqInt e 0 then .ok (.int n)
      else .ok (.expr (.Add [e, .hostNum n]))

/-- `[a + other for a in self]` with a raw-number `other`. -/
def exprAddIntList : List Expr → Int → Except PyErr (List PyVal)
  | [], _ => .ok []
  | a :: as, n => do
      let c ← exprAddInt a n
      let cs ← exprAddIntList as n
      .ok (c :: cs)

end

mutual

/-- `n + node` for a raw Python number `n`: `int.__add__` returns
`NotImplemented`, so `Expression.__radd__` runs `Expression.__add__(n, e)`
with the raw number as `self`. -/
def intAddExpr : Int → Expr → Except PyErr PyVal
  | n, .Tensor bs =>
      if n == 0 then .ok (.expr (.Tensor bs))
      else do
        let cs ← intAddExprList n bs
        let t ← mkTensor cs
        .ok (.expr t)
  | n, e =>
      if eqInt e 0 then .ok (.int n)
      else if n == 0 then .ok (.expr e)
      else .ok (.expr (.Add [.hostNum n, e]))

/-- `[self + b for b in other]` with a raw-number `self`. -/
def intAddExprList : Int → List Expr → Except PyErr (List PyVal)
  | _, [] => .ok []
  | n, b :: bs => do
      let c ← intAddExpr n b
      let cs ← intAddExprList n bs
      .ok (c :: cs)

end

mutual

/-- `node * n` for a raw Python number `n`: `Derivative.__mul__` on a
bare derivative attaches the raw number as its argument; otherwise
`Expression.__mul__(e, n)` runs. -/
def exprMulInt : Expr → Int → Except PyErr PyVal
  | .Derivative w none, n => .ok (.expr (.Derivative w (some (.hostNum n))))
  | .Tensor as, n =>
      if n == 1 then .ok (.expr (.Tensor as))
      else do
        let cs ← exprMulIntList as n
        let t ← mkTensor cs
        .ok (.expr t)
  | e, n =>
      if n == 1 then .ok (.expr e)
      else if eqInt e 1 then .ok (.int n)
      else if n == 0 then .ok (.int n)
      else if eqInt e 0 then .ok (.expr e)
      else .ok (.expr (.Multiply [e, .hostNum n]))

/-- `[a * other for a in self]` with a raw-number `other`. -/
def exprMulIntList : List Expr → Int → Except PyErr (List PyVal)
  | [], _ => .ok []
  | a :: as, n => do
      let c ← exprMulInt a n
      let cs ← exprMulIntList as n
      .ok (c :: cs)

end

mutual

/-- `n * node` for a raw Python number `n`: `int.__mul__` returns
`NotImplemented` and `Expression.__rmul__` runs `Expression.__mul__(n, e)`
directly, so the bare-`Derivative` override does not apply. -/
def intMulExpr : Int → Expr → Except PyErr PyVal
  | n, .Tensor bs =>
      if n == 1 then .ok (.expr (.Tensor bs))
      else do
        let cs ← intMulExprList n bs
        let t ← mkTensor cs
        .ok (.expr t)
  | n, e =>
      if eqInt e 1 then .ok (.int n)
      else if n == 1 then .ok (.expr e)
      else if eqInt e 0 then .ok (.expr e)
      else if n == 0 then .ok (.int n)
      else .ok (.expr (.Multiply [.hostNum n, e]))

/-- `[self * a for a in other]` with a raw-number `self`. -/
def intMulExprList : Int → List Expr → Except PyErr (List PyVal)
  | _, [] => .ok []
  | n, b :: bs => do
      let c ← intMulExpr n b
      let cs ← intMulExprList n bs
      .ok (c :: cs)

end

mutual

/-- NumPy elementwise arithmetic between numbers and (nested) arrays:
a scalar broadcasts over an array, equal-length arrays combine
elementwise, and a length mismatch is a `ValueError`.  (NumPy's general
broadcasting is wider than this; the engine only ever produces
rectangular arrays of matching shape.) -/
def arrOp (f : Int → Int → Int) : PyVal → PyVal → Except PyErr PyVal
  | .int m, .int n => .ok (.int (f m n))
  | .int m, .arr b => do
      let cs ← arrOpMapL f m b
      .ok (.arr cs)
  | .arr a, .int n => do
      let cs ← arrOpMapR f a n
      .ok (.arr cs)
  | .arr a, .arr b =>
      if a.length == b.length then do
        let cs ← arrOpZip f a b
        .ok (.arr cs)
      else .error .valueError
  | _, _ => .error .typeError
termination_by a b => sizeOf a + sizeOf b

def arrOpMapL (f : Int → Int → Int) : Int → List PyVal → Except PyErr (List PyVal)
  | _, [] => .ok []
  | m, b :: bs => do
      let c ← arrOp f (.int m) b
      let cs ← arrOpMapL f m bs
      .ok (c :: cs)
termination_by m bs => sizeOf (PyVal.int m) + sizeOf bs

def arrOpMapR (f : Int → Int → Int) : List PyVal → Int → Except PyErr (List PyVal)
  | [], _ => .ok []
  | a :: as, n => do
      let c ← arrOp f a (.int n)
      let cs ← arrOpMapR f as n
      .ok (c :: cs)
termination_by as n => sizeOf as + sizeOf (PyVal.int n)

def arrOpZip (f : Int → Int → Int) : List PyVal → List PyVal → Except PyErr (List PyVal)
  | a :: as, b :: bs => do
      let c ← arrOp f a b
      let cs ← arrOpZip f as bs
      .ok (c :: cs)
  | _, _ => .ok []
termination_by as bs => sizeOf as + sizeOf bs

end

mutual

/-- NumPy unary negation of a number or (nested) array. -/
def arrNeg : PyVal → Except PyErr PyVal
  | .int n => .ok (.int (-n))
  | .arr a => do
      let cs ← arrNegList a
      .ok (.arr cs)
  | _ => .error .typeError

def arrNegList : List PyVal → Except PyErr (List PyVal)
  | [] => .ok []
  | a :: as => do
      let c ← arrNeg a
      let cs ← arrNegList as
      .ok (c :: cs)

end

/-- Python `+` between evaluation results (numbers, NumPy arrays,
residual nodes).  Mixing an array with a residual node hits `other == 0`
on an array (an ambiguous truth value) or NumPy object arithmetic; both
are modeled as errors — the engine's own constructions never build a sum
holding both a tensor and a scalar operand, so these rows are
unreachable from coerced trees. -/
def valAdd : PyVal → PyVal → Except PyErr PyVal
  | .expr a, .expr b => do
      let c ← hadd a b
      .ok (.expr c)
  | .expr e, .int n => exprAddInt e n
  | .int n, .expr e => intAddExpr n e
  | .int m, .int n => .ok (.int (m + n))
  | .int m, .arr b => arrOp (· + ·) (.int m) (.arr b)
  | .arr a, .int n => arrOp (· + ·) (.arr a) (.int n)
  | .arr a, .arr b => arrOp (· + ·) (.arr a) (.arr b)
  | .str s, .str t => .ok (.str (s ++ t))
  | .expr _, .arr _ => .error .valueError
  | .arr _, .expr _ => .error .valueError
  | _, _ => .error .typeError

/-- Python `*` between evaluation results (see `valAdd` for the
array/node rows). -/
def valMul : PyVal → PyVal → Except PyErr PyVal
  | .expr a, .expr b => do
      let c ← hmul a b
      .ok (.expr c)
  | .expr e, .int n => exprMulInt e n
  | .int n, .expr e => intMulExpr n e
  | .int m, .int n => .ok (.int (m * n))
  | .int m, .arr b => arrOp (· * ·) (.int m) (.arr b)
  | .arr a, .int n => arrOp (· * ·) (.arr a) (.int n)
  | .arr a, .arr b => arrOp (· * ·) (.arr a) (.arr b)
  | .str s, .int n => .ok (.str (String.join (List.replicate n.toNat s)))
  | .int n, .str s => .ok (.str (String.join (List.replicate n.toNat s)))
  | .expr _, .arr _ => .error .valueError
  | .arr _, .expr _ => .error .valueError
  | _, _ => .error .typeError

/-- Python unary `-` on an evaluation result. -/
def valNeg : PyVal → Except PyErr PyVal
  | .int n => .ok (.int (-n))
  | .arr a => arrNeg (.arr a)
  | .expr e => do
      let c ← hneg e
      .ok (.expr c)
  | _ => .error .typeError

/-- The inner loop of `Multiply.diff`:
`for j, arg in enumerate(self.args): if j != i: term = term * arg`. -/
def mulInnerFold : List Expr → Nat → Nat → Expr → Except PyErr Expr
  | [], _, _, t => .ok t
  | b :: bs, j, i, t =>
      if j == i then mulInnerFold bs (j + 1) i t
      else do
        let t' ← hmul t b
        mulInnerFold bs (j + 1) i t'

mutual

/-- `Number.diff`: a tensor `wrt` produces the tensor of derivatives
with respect to each of its elements in turn; any other `wrt` gives the
zero constant. -/
def numberDiff (v : Int) : Expr → Except PyErr Expr
  | .Tensor ws => do
      let ds ← numberDiffList v ws
      mkTensor (ds.map .expr)
  | _ => .ok (.Number 0)
termination_by wrt => sizeOf wrt

/-- `[self.diff(a) for a in wrt.args]` for a `Number`. -/
def numberDiffList (v : Int) : List Expr → Except PyErr (List Expr)
  | [] => .ok []
  | w :: ws => do
      let d ← numberDiff v w
      let ds ← numberDiffList v ws
      .ok (d :: ds)
termination_by ws => sizeOf ws

end

mutual

/-- `Symbol.diff`: a tensor `wrt` produces the tensor of derivatives
with respect to each of its elements in turn; a same-named `Symbol`
gives `Number(1)`; any other `wrt` — a differently named Symbol
included — gives `Derivative(wrt, arg=self)`.  Note: no branch produces
`Number(0)`. -/
def symbolDiff (name : String) : Expr → Except PyErr Expr
  | .Tensor ws => do
      let ds ← symbolDiffList name ws
      mkTensor (ds.map .expr)
  | .Symbol wname =>
      if wname == name then .ok (.Number 1)
      else .ok (.Derivative (.Symbol wname) (some (.Symbol name)))
  | wrt => .ok (.Derivative wrt (some (.Symbol name)))
termination_by wrt => sizeOf wrt

/-- `[self.diff(a) for a in wrt.args]` for a `Symbol`. -/
def symbolDiffList (name : String) : List Expr → Except PyErr (List Expr)
  | [] => .ok []
  | w :: ws => do
      let d ← symbolDiff name w
      let ds ← symbolDiffList name ws
      .ok (d :: ds)
termination_by ws => sizeOf ws

end

/-- The loop of `Add.diff`, over the operands' suspended derivatives
(each is forced inside the loop, exactly where the source computes
`arg.diff(wrt)`): the first derivative replaces the initial zero
constant, later ones are added left to right. -/
def addDiffRun : List (Unit → Except PyErr Expr) → Nat → Expr → Except PyErr Expr
  | [], _, deriv => .ok deriv
  | d :: rest, i, deriv => do
      let t ← d ()
      let deriv' ← if i == 0 then pure t else hadd deriv t
      addDiffRun rest (i + 1) deriv'

/-- The loop of `Multiply.diff`, over the operands' suspended
derivatives: for each operand index `i`, the term is that operand's
derivative multiplied by every other operand (left to right), and the
terms are accumulated left to right starting from the zero constant
(the first term replaces it). -/
def mulDiffRun (full : List Expr) :
    List (Unit → Except PyErr Expr) → Nat → Expr → Except PyErr Expr
  | [], _, deriv => .ok deriv
  | d :: rest, i, deriv => do
      let t0 ← d ()
      let term ← mulInnerFold full 0 i t0
      let deriv' ← if i == 0 then pure term else hadd deriv term
      mulDiffRun full rest (i + 1) deriv'

/-- `[a.diff(wrt) for a in self.args]`, over suspended derivatives. -/
def collectRun : List (Unit → Except PyErr Expr) → Except PyErr (List Expr)
  | [] => .ok []
  | d :: rest => do
      let x ← d ()
      let xs ← collectRun rest
      .ok (x :: xs)

/-- `diff`: exact symbolic differentiation.
* `Number.diff` and `Symbol.diff` are `numberDiff` / `symbolDiff`.
* `Negative.diff`: negation of the operand's derivative.
* `Add.diff`: sum rule, accumulated left to right.
* `Multiply.diff`: n-ary product rule, accumulated left to right.
* `Derivative.diff`: wraps itself in a new `Derivative` node (one per
  symbol for a tensor `wrt`).
* `Tensor.diff`: tensor of elementwise derivatives.
Differentiating a raw-number operand raises `AttributeError`. -/
def diff : Expr → Expr → Except PyErr Expr
  | .Number v, wrt => numberDiff v wrt
  | .Symbol name, wrt => symbolDiff name wrt
  | .Negative a, wrt => do
      let d ← diff a wrt
      hneg d
  | .Add args, wrt =>
      addDiffRun (args.attach.map fun x => fun _ => diff x.1 wrt) 0 (.Number 0)
  | .Multiply args, wrt =>
      mulDiffRun args (args.attach.map fun x => fun _ => diff x.1 wrt) 0 (.Number 0)
  | .Derivative w a, .Tensor ws =>
      mkTensor (ws.map fun b => .expr (.Derivative b (some (.Derivative w a))))
  | .Derivative w a, wrt => .ok (.Derivative wrt (some (.Derivative w a)))
  | .Tensor as, wrt => do
      let ds ← collectRun (as.attach.map fun x => fun _ => diff x.1 wrt)
      mkTensor (ds.map .expr)
  | .hostNum _, _ => .error .attributeError
termination_by e _ => sizeOf e
decreasing_by
  all_goals simp_wf
  all_goals first
    | omega
    | (refine Nat.lt_of_lt_of_le (List.sizeOf_lt_of_mem x.2) ?_; omega)

/-- A variable-binding environment: the `**vars` mapping of `eval`, from
symbol name to bound value. -/
def Bindings : Type := String → Option PyVal

/-- The empty binding set `{}`. -/
def emptyBind : Bindings := fun _ => none

/-- The accumulation loop of `Add.eval` / `Multiply.eval`, over the
one-operand evaluator `ev`: the first operand's value replaces the
initial constant, later values are combined with the operator, left to
right, evaluation and combination interleaved. -/
def foldOpEval (op : PyVal → PyVal → Except PyErr PyVal)
    (ev : Expr → Option (Except PyErr PyVal)) :
    List Expr → Nat → PyVal → Option (Except PyErr PyVal)
  | [], _, acc => some (.ok acc)
  | a :: rest, i, acc =>
      match ev a with
      | none => none
      | some (.error e) => some (.error e)
      | some (.ok v) =>
          match (if i == 0 then Except.ok v else op acc v) with
          | .error e => some (.error e)
          | .ok acc' => foldOpEval op ev rest (i + 1) acc'

/-- `[a.eval(**vars) for a in self.args]`, over the one-operand
evaluator `ev`. -/
def listEval (ev : Expr → Option (Except PyErr PyVal)) :
    List Expr → Option (Except PyErr (List PyVal))
  | [] => some (.ok [])
  | a :: as =>
      match ev a with
      | none => none
      | some (.error e) => some (.error e)
      | some (.ok v) =>
          match listEval ev as with
          | none => none
          | some (.error e) => some (.error e)
          | some (.ok vs) => some (.ok (v :: vs))

/-- Fuel-indexed evaluation: `evalF n e vars` runs `e.eval(**vars)` with
recursion budget `n` (every nested `eval` call costs one unit).  `none`
means the budget was exhausted; a result that is `none` for every budget
is a genuinely diverging evaluation.
* `Number`: the stored value.
* `Symbol`: the bound value, else itself.
* `Negative`: arithmetic negation of the evaluated operand.
* `Add`/`Multiply`: left-to-right accumulation of evaluated operands.
* applied `Derivative`: `self.arg.diff(self.wrt).eval(**vars)`.
* bare `Derivative`: itself.
* `Tensor`: elementwise; a tensor of the results if any is still a
  node, else a NumPy array of them.
* a raw-number operand has no `eval` method: `AttributeError`. -/
def evalF : Nat → Expr → Bindings → Option (Except PyErr PyVal)
  | 0, _, _ => none
  | n + 1, e, vars =>
      match e with
      | .Number v => some (.ok (.int v))
      | .Symbol name => some (.ok ((vars name).getD (.expr (.Symbol name))))
      | .Negative a =>
          match evalF n a vars with
          | none => none
          | some (.error err) => some (.error err)
          | some (.ok v) => some (valNeg v)
      | .Add args => foldOpEval valAdd (fun a => evalF n a vars) args 0 (.int 0)
      | .Multiply args => foldOpEval valMul (fun a => evalF n a vars) args 0 (.int 1)
      | .Derivative w none => some (.ok (.expr (.Derivative w none)))
      | .Derivative w (some a) =>
          match diff a w with
          | .error err => some (.error err)
          | .ok d => evalF n d vars
      | .Tensor as =>
          match listEval (fun a => evalF n a vars) as with
          | none => none
          | some (.error err) => some (.error err)
          | some (.ok vs) =>
              if vs.any fun v => match v with | .expr _ => true | _ => false then
                some ((mkTensor vs).map .expr)
              else some (.ok (.arr vs))
      | .hostNum _ => some (.error .attributeError)

/-- `r.eval(**vars)` for the result `r` of a node-producing call: an
exception from the producing call propagates, otherwise the produced
node is evaluated. -/
def exceptEval (r : Except PyErr Expr) (n : Nat) (vars : Bindings) :
    Option (Except PyErr PyVal) :=
  match r with
  | .error e => some (.error e)
  | .ok d => evalF n d vars

mutual

/-- `Expression.inner`: contraction over the last axis of the left and
the first axis of the right operand.  Anything but two tensors
multiplies; two order-1 tensors contract to an `Add` of elementwise
products (built with the raw `Add` constructor, not `__add__`);
higher-order operands map `inner` across the leading axis. -/
def inner : Expr → Expr → Except PyErr Expr
  | .Tensor as, .Tensor bs =>
      if 1 < order (.Tensor as) && 1 < order (.Tensor bs) then do
        let cs ← innerZip as bs
        mkTensor (cs.map .expr)
      else if 1 < order (.Tensor as) then do
        let cs ← innerMapR as (.Tensor bs)
        mkTensor (cs.map .expr)
      else if 1 < order (.Tensor bs) then do
        let cs ← innerMapL (.Tensor as) bs
        mkTensor (cs.map .expr)
      else do
        let ps ← mulZip as bs
        .ok (.Add ps)
  | a, b => hmul a b
termination_by a b => sizeOf a + sizeOf b

/-- `[a.inner(b) for a, b in zip(self, other)]`. -/
def innerZip : List Expr → List Expr → Except PyErr (List Expr)
  | a :: as, b :: bs => do
      let c ← inner a b
      let cs ← innerZip as bs
      .ok (c :: cs)
  | _, _ => .ok []
termination_by as bs => sizeOf as + sizeOf bs

/-- `[a.inner(other) for a in self]`. -/
def innerMapR : List Expr → Expr → Except PyErr (List Expr)
  | [], _ => .ok []
  | a :: as, b => do
      let c ← inner a b
      let cs ← innerMapR as b
      .ok (c :: cs)
termination_by as b => sizeOf as + sizeOf b

/-- `[self.inner(b) for b in other]`. -/
def innerMapL : Expr → List Expr → Except PyErr (List Expr)
  | _, [] => .ok []
  | a, b :: bs => do
      let c ← inner a b
      let cs ← innerMapL a bs
      .ok (c :: cs)
termination_by a bs => sizeOf a + sizeOf bs

end

/-- One step of Python `zip(*rows)` iteration, driven by the first row:
stop as soon as any row is exhausted, else emit the tuple of heads and
continue on the tails. -/
def pyZipGo {α : Type} : List α → List (List α) → List (List α)
  | [], _ => []
  | x :: xs, rest =>
      if rest.any List.isEmpty then []
      else (x :: rest.filterMap List.head?) :: pyZipGo xs (rest.map List.tail)

/-- Python `list(zip(*rows))`: the list of columns, truncated to the
shortest row; `zip()` of nothing is empty. -/
def pyZip {α : Type} : List (List α) → List (List α)
  | [] => []
  | r :: rest => pyZipGo r rest

/-- Python iteration over a node: only `Tensor` defines
`__iter__`/`__getitem__`; iterating any other node raises `TypeError`
(which is what `zip(*...)` does on a non-iterable row). -/
def iterArgs : Expr → Except PyErr (List Expr)
  | .Tensor as => .ok as
  | _ => .error .typeError

/-- `iterArgs` over the row list, left to right. -/
def iterList : List Expr → Except PyErr (List (List Expr))
  | [] => .ok []
  | r :: rs => do
      let a ← iterArgs r
      let as ← iterList rs
      .ok (a :: as)

mutual

/-- `Expression.T`: transpose.  Order > 2 transposes elementwise;
order 2 is `Tensor(zip(*self.args))`, whose `zip` tuples are coerced
back into tensor rows by `Tensor.__init__`; any node of order ≤ 1 is its
own transpose. -/
def transP : Expr → Except PyErr Expr
  | .Tensor as =>
      if 2 < order (.Tensor as) then do
        let ts ← transPList as
        mkTensor (ts.map .expr)
      else if order (.Tensor as) == 2 then do
        let rows ← iterList as
        mkTensor ((pyZip rows).map fun c => .list (c.map .expr))
      else .ok (.Tensor as)
  | e => .ok e
termination_by e => sizeOf e

/-- `[a.T for a in self]`. -/
def transPList : List Expr → Except PyErr (List Expr)
  | [] => .ok []
  | a :: as => do
      let t ← transP a
      let ts ← transPList as
      .ok (t :: ts)
termination_by as => sizeOf as

end

/-- Python `==` between two nodes produced by separate constructor
calls (hence distinct objects).  Only `Number` defines `__eq__`
(comparing its stored value, with the reflected comparison resolving a
`Number` on the other side); every other node kind falls back to
`object.__eq__`, which is object identity and therefore `False` for two
distinct instances, whatever their contents. -/
def pyEq : Expr → Expr → Bool
  | .Number v, b => eqInt b v
  | .hostNum n, b => eqInt b n
  | a, .Number w => eqInt a w
  | a, .hostNum m => eqInt a m
  | _, _ => false

/-- Following the spec's words for the n-ary product rule: the
derivative of a product is "the sum, over each operand index `i`, of the
term formed by differentiating operand `i` and multiplying by every
other operand unchanged; accumulated left-to-right starting from the
zero constant". -/
def specProductTerm (args : List Expr) (wrt : Expr) (i : Nat) : Except PyErr Expr := do
  let di ← diff (args.getD i (.Number 0)) wrt
  (args.enum.filter fun p => p.1 ≠ i).foldlM (fun t p => hmul t p.2) di

/-- One accumulation step of the spec-worded product rule: compute the
term for index `i` and sum it onto the accumulator (the first term
replaces the starting constant, which is how the source's loop realizes
"accumulated left-to-right starting from the zero constant"). -/
def specFoldStep (args : List Expr) (wrt : Expr) (acc : Expr) (i : Nat) :
    Except PyErr Expr := do
  let t ← specProductTerm args wrt i
  if i == 0 then pure t else hadd acc t

/-- The spec-worded `Multiply` derivative: the terms of
`specProductTerm` for each operand index, summed left to right starting
from the zero constant. -/
def specProductRule (args : List Expr) (wrt : Expr) : Except PyErr Expr :=
  (List.range args.length).foldlM (specFoldStep args wrt) (.Number 0)

/-- A bare differential operator: a `Derivative` node with no argument
yet. -/
def isBareDeriv : Expr → Bool
  | .Derivative _ none => true
  | _ => false

/-!
## Claim theorems
-/

/-- C1: for every Symbol `x`, `x.diff(x).eval({})` is the number 1.  For
distinct names, however, `x.diff(y)` is the node `Derivative(y, arg=x)`,
whose evaluation under the empty binding set exhausts every recursion
budget (`Derivative.eval` re-runs `x.diff(y).eval`, reproducing the same
node): the evaluation diverges instead of producing the 0 the spec
states. -/
theorem c1_symbol_diff :
    (∀ (s : String) (n : Nat),
        exceptEval (diff (.Symbol s) (.Symbol s)) (n + 1) emptyBind
          = some (.ok (.int 1)))
    ∧ ∀ (a b : String), a ≠ b →
        diff (.Symbol a) (.Symbol b)
            = .ok (.Derivative (.Symbol b) (some (.Symbol a)))
        ∧ ∀ n, evalF n (.Derivative (.Symbol b) (some (.Symbol a))) emptyBind = none := by
  constructor
  · intro s n
    simp [diff, symbolDiff, exceptEval, evalF]
  · intro a b h
    have hd : diff (.Symbol a) (.Symbol b)
        = .ok (.Derivative (.Symbol b) (some (.Symbol a))) := by
      simp [diff, symbolDiff]
      intro hba
      exact absurd hba.symm h
    refine ⟨hd, ?_⟩
    intro n
    induction n with
    | zero => simp [evalF]
    | succ m ih => rw [evalF]; simp [hd, ih]

/-- C1 witness at `x`, `y`. -/
theorem c1_symbol_diff_witness :
    (("x" : String) ≠ "y")
    ∧ exceptEval (diff (.Symbol "x") (.Symbol "x")) 1 emptyBind = some (.ok (.int 1))
    ∧ evalF 5 (.Derivative (.Symbol "y") (some (.Symbol "x"))) emptyBind = none :=
  ⟨by decide, c1_symbol_diff.1 "x" 0, (c1_symbol_diff.2 "x" "y" (by decide)).2 5⟩

/-- If dropping `i` elements exposes `a`, then `a` is the `i`-th
element. -/
lemma getD_of_drop_cons {full : List Expr} {i : Nat} {a : Expr} {rest : List Expr}
    (h : full.drop i = a :: rest) (d : Expr) : full.getD i d = a := by
  induction i generalizing full with
  | zero => simp at h; simp [h]
  | succ k ih =>
      cases full with
      | nil => simp at h
      | cons x xs =>
          simp only [List.drop_succ_cons] at h
          simpa [List.getD] using ih h

/-- Dropping one more element after exposing `a :: rest` leaves
`rest`. -/
lemma drop_succ_of_drop_cons {full : List Expr} {i : Nat} {a : Expr} {rest : List Expr}
    (h : full.drop i = a :: rest) : full.drop (i + 1) = rest := by
  have : (full.drop i).tail = rest := by rw [h]; rfl
  rw [← this, List.tail_drop]

/-- The source's inner `Multiply.diff` loop (skip index `i`, multiply
left to right) is the fold of `hmul` over the enumerated operands with
index `i` filtered out. -/
lemma mulInnerFold_eq_filter_fold (i : Nat) :
    ∀ (rest : List Expr) (j : Nat) (t : Expr),
      mulInnerFold rest j i t
        = ((rest.enumFrom j).filter fun p => p.1 ≠ i).foldlM
            (fun t p => hmul t p.2) t := by
  intro rest
  induction rest with
  | nil => intro j t; rfl
  | cons b bs ih =>
      intro j t
      by_cases hj : j = i
      · subst hj
        simp [mulInnerFold, List.enumFrom, List.filter, List.foldlM, ih]
      · have hbeq : (j == i) = false := by simp [hj]
        have hdec : decide (j ≠ i) = true := by simp [hj]
        simp only [mulInnerFold, hbeq, List.enumFrom, List.filter, hdec,
          Bool.false_eq_true, if_false]
        cases hm : hmul t b with
        | error err => simp [List.foldlM, hm, bind, Except.bind]
        | ok t' => simp [List.foldlM, hm, bind, Except.bind, ih]

/-- The source's outer `Multiply.diff` loop, started at index `i` on
the remaining operands' suspended derivatives, is the fold of the
spec-worded accumulation step over the remaining indices. -/
lemma mulDiffRun_eq_spec (full : List Expr) (wrt : Expr) :
    ∀ (pending : List Expr) (i : Nat) (deriv : Expr),
      full.drop i = pending →
      mulDiffRun full (pending.map fun a => fun _ => diff a wrt) i deriv
        = (List.range' i pending.length).foldlM (specFoldStep full wrt) deriv := by
  intro pending
  induction pending with
  | nil => intro i deriv _; simp [mulDiffRun, List.foldlM, pure, Except.pure]
  | cons a rest ih =>
      intro i deriv hdrop
      have hget : full.getD i (.Number 0) = a := getD_of_drop_cons hdrop _
      have hdrop' : full.drop (i + 1) = rest := drop_succ_of_drop_cons hdrop
      have hterm : specProductTerm full wrt i
          = (do
              let t0 ← diff a wrt
              mulInnerFold full 0 i t0) := by
        rw [specProductTerm, hget]
        cases hd : diff a wrt with
        | error err => simp [bind, Except.bind]
        | ok t0 =>
            simp [bind, Except.bind, mulInnerFold_eq_filter_fold i full 0 t0, List.enum]
      simp only [mulDiffRun, List.length_cons, List.range', List.map_cons]
      rw [List.foldlM_cons]
      have hstep : ∀ (d : Expr), specFoldStep full wrt d i
          = (do
              let t0 ← diff a wrt
              let term ← mulInnerFold full 0 i t0
              if i == 0 then pure term else hadd d term) := by
        intro d
        rw [specFoldStep, hterm]
        cases hd : diff a wrt with
        | error err => simp [bind, Except.bind]
        | ok t0 =>
            cases hf : mulInnerFold full 0 i t0 with
            | error err => simp [bind, Except.bind, hf]
            | ok term => simp [bind, Except.bind, hf]
      rw [hstep deriv]
      cases hd : diff a wrt with
      | error err => simp [bind, Except.bind]
      | ok t0 =>
          simp only [bind, Except.bind]
          cases hf : mulInnerFold full 0 i t0 with
          | error err => simp
          | ok term =>
              by_cases hi : i = 0
              · subst hi
                simp [pure, Except.pure, ih _ _ hdrop']
              · have hb : (i == 0) = false := by simp [hi]
                simp only [hb, Bool.false_eq_true, if_false]
                cases ha : hadd deriv term with
                | error err => simp
                | ok deriv2 => simp [ih _ _ hdrop']

/-- C2: `Multiply.diff` is exactly the spec's n-ary product rule — the
sum over each operand index of the term that differentiates that
operand and multiplies it by every other operand unchanged, accumulated
left to right — and for `f = x*x`, `f.diff(x)` is `x + x`, which
evaluates to 6 under `{'x': 3}`. -/
theorem c2_product_rule :
    (∀ (args : List Expr) (wrt : Expr),
        diff (.Multiply args) wrt = specProductRule args wrt)
    ∧ (do
        let f ← hmul (.Symbol "x") (.Symbol "x")
        diff f (.Symbol "x")) = .ok (.Add [.Symbol "x", .Symbol "x"])
    ∧ ∀ (vars : Bindings) (n : Nat), vars "x" = some (.int 3) →
        exceptEval
          (do
            let f ← hmul (.Symbol "x") (.Symbol "x")
            diff f (.Symbol "x"))
          (n + 2) vars
        = some (.ok (.int 6)) := by
  have hconcrete : (do
      let f ← hmul (.Symbol "x") (.Symbol "x")
      diff f (.Symbol "x")) = .ok (.Add [.Symbol "x", .Symbol "x"]) := by
    simp [hmul, diff, eqInt, isTensor, mulDiffRun, mulInnerFold, hadd, symbolDiff,
      List.attach_map_val, bind, Except.bind, pure, Except.pure]
  refine ⟨?_, hconcrete, ?_⟩
  · intro args wrt
    have h0 : diff (.Multiply args) wrt
        = mulDiffRun args (args.map fun a => fun _ => diff a wrt) 0 (.Number 0) := by
      rw [diff]
      exact congrArg (fun t => mulDiffRun args t 0 (Expr.Number 0))
        (List.attach_map_val args fun a _ => diff a wrt)
    rw [h0, mulDiffRun_eq_spec args wrt args 0 (.Number 0) rfl,
      specProductRule, List.range_eq_range']
  · intro vars n h
    rw [hconcrete]
    simp [exceptEval, evalF, foldOpEval, valAdd, h]

/-- C2 witness: the general equation at `[x, y]` w.r.t. `x`, and the
concrete `x*x` example under `x ↦ 3`. -/
theorem c2_product_rule_witness :
    diff (.Multiply [.Symbol "x", .Symbol "y"]) (.Symbol "x")
        = specProductRule [.Symbol "x", .Symbol "y"] (.Symbol "x")
    ∧ (fun s => if s = "x" then some (PyVal.int 3) else none) "x" = some (.int 3)
    ∧ exceptEval
        (do
          let f ← hmul (.Symbol "x") (.Symbol "x")
          diff f (.Symbol "x"))
        2 (fun s => if s = "x" then some (PyVal.int 3) else none)
      = some (.ok (.int 6)) :=
  ⟨c2_product_rule.1 _ _, rfl,
   c2_product_rule.2.2 _ 0 rfl⟩

/-- C3: evaluating an applied `Derivative` node under any binding set is
exactly `self.arg.diff(self.wrt).eval(**vars)` (the outer call spends
one budget unit), and evaluating a bare `Derivative` node returns the
node itself under any binding set. -/
theorem c3_derivative_eval (w a : Expr) (vars : Bindings) (n : Nat) :
    evalF (n + 1) (.Derivative w (some a)) vars = exceptEval (diff a w) n vars
    ∧ evalF (n + 1) (.Derivative w none) vars
        = some (.ok (.expr (.Derivative w none))) := by
  constructor
  · rw [evalF]
    cases h : diff a w <;> simp [exceptEval, h]
  · rw [evalF]

/-- C4 counterexample: two separately constructed Symbols carrying the
very same name compare unequal — `Symbol` defines no `__eq__`, so `==`
between distinct Symbol instances is object identity and yields
`False` even though the names match. -/
theorem c4_symbol_eq_counterexample :
    pyEq (.Symbol "x") (.Symbol "x") = false := rfl

/-- C4 (amended): equality between two distinctly constructed Symbol
nodes is always false, whatever their names; `==` on Symbols is object
identity, so only comparing a Symbol object with itself yields true (in
which case the names trivially match). -/
theorem c4_symbol_eq_identity (a b : String) :
    pyEq (.Symbol a) (.Symbol b) = false := rfl

/-- Coercion is the identity on a list of already-built nodes. -/
lemma asExprList_map_expr (l : List Expr) :
    asExprList (l.map PyVal.expr) = .ok l := by
  induction l with
  | nil => rfl
  | cons a as ih => simp [asExprList, asExprPy, ih, bind, Except.bind]

/-- A tensor the construction checks accept is nonempty and
shape-homogeneous. -/
lemma mkTensorChecks_ok {c : List PyVal} {t : Expr} (h : mkTensorChecks c = .ok t) :
    ∃ es, t = .Tensor es ∧ es ≠ []
      ∧ ∀ e ∈ es, shape e = shape (es.headD (.Number 0)) := by
  cases c with
  | nil => simp [mkTensorChecks] at h
  | cons c0 cs =>
      cases h0 : asExprPy c0 with
      | error err => simp [mkTensorChecks, h0, bind, Except.bind] at h
      | ok e0 =>
          cases hm : asExprList cs with
          | error err => simp [mkTensorChecks, h0, hm, bind, Except.bind] at h
          | ok es' =>
              cases hall : es'.all fun e => shape e == shape e0 with
              | false => simp [mkTensorChecks, h0, hm, hall, bind, Except.bind] at h
              | true =>
                  have hsh : ∀ e ∈ es', shape e = shape e0 := by
                    intro e he
                    have := (List.all_eq_true.mp hall) e he
                    exact beq_iff_eq.mp (by simpa using this)
                  have ht : t = .Tensor (e0 :: es') := by
                    simp [mkTensorChecks, h0, hm, hall, bind, Except.bind] at h
                    exact h.symm
                  refine ⟨e0 :: es', ht, by simp, ?_⟩
                  intro e he
                  rcases List.mem_cons.mp he with rfl | he'
                  · rfl
                  · simpa [List.headD] using hsh e he'

/-- C5: the inner product of two order-1 tensors is the `Add` node of
the elementwise products; and for symbol 3-vectors it evaluates,
under any binding that resolves all six symbols to numbers, to
`a*d + b*e + c*f`. -/
theorem c5_inner_product :
    (∀ (as bs : List Expr), (∀ a ∈ as, order a = 0) → (∀ b ∈ bs, order b = 0) →
        as.length = bs.length →
        inner (.Tensor as) (.Tensor bs) = (mulZip as bs).map .Add)
    ∧ ∀ (vars : Bindings) (n1 n2 n3 n4 n5 n6 : String) (v1 v2 v3 v4 v5 v6 : Int),
        vars n1 = some (.int v1) → vars n2 = some (.int v2) → vars n3 = some (.int v3) →
        vars n4 = some (.int v4) → vars n5 = some (.int v5) → vars n6 = some (.int v6) →
        ∀ n, exceptEval
            (inner (.Tensor [.Symbol n1, .Symbol n2, .Symbol n3])
                   (.Tensor [.Symbol n4, .Symbol n5, .Symbol n6]))
            (n + 3) vars
          = some (.ok (.int (v1 * v4 + v2 * v5 + v3 * v6))) := by
  constructor
  · intro as bs ha hb _
    have h1 : order (.Tensor as) = 1 := by
      cases as with
      | nil => rfl
      | cons a as' => simp [order, ha a (by simp)]
    have h2 : order (.Tensor bs) = 1 := by
      cases bs with
      | nil => rfl
      | cons b bs' => simp [order, hb b (by simp)]
    cases hm : mulZip as bs with
    | error err => simp [inner, h1, h2, hm, bind, Except.bind, Except.map]
    | ok ps => simp [inner, h1, h2, hm, bind, Except.bind, Except.map]
  · intro vars n1 n2 n3 n4 n5 n6 v1 v2 v3 v4 v5 v6 h1 h2 h3 h4 h5 h6 n
    have hi : inner (.Tensor [.Symbol n1, .Symbol n2, .Symbol n3])
        (.Tensor [.Symbol n4, .Symbol n5, .Symbol n6])
        = .ok (.Add [.Multiply [.Symbol n1, .Symbol n4],
                     .Multiply [.Symbol n2, .Symbol n5],
                     .Multiply [.Symbol n3, .Symbol n6]]) := by
      simp [inner, order, mulZip, hmul, eqInt, isTensor, bind, Except.bind]
    rw [hi]
    simp [exceptEval, evalF, foldOpEval, listEval, valAdd, valMul,
      h1, h2, h3, h4, h5, h6]

/-- C5 witness: `[a,b,c] · [d,e,f]` under the binding
`a..f ↦ 1..6` evaluates to `1*4 + 2*5 + 3*6`. -/
theorem c5_inner_product_witness :
    (inner (.Tensor [.Symbol "a", .Symbol "b", .Symbol "c"])
           (.Tensor [.Symbol "d", .Symbol "e", .Symbol "f"])
        = (mulZip [.Symbol "a", .Symbol "b", .Symbol "c"]
                  [.Symbol "d", .Symbol "e", .Symbol "f"]).map .Add)
    ∧ exceptEval
        (inner (.Tensor [.Symbol "a", .Symbol "b", .Symbol "c"])
               (.Tensor [.Symbol "d", .Symbol "e", .Symbol "f"]))
        3
        (fun s => if s = "a" then some (.int 1) else if s = "b" then some (.int 2)
          else if s = "c" then some (.int 3) else if s = "d" then some (.int 4)
          else if s = "e" then some (.int 5) else if s = "f" then some (.int 6) else none)
      = some (.ok (.int (1 * 4 + 2 * 5 + 3 * 6))) := by
  constructor
  · exact c5_inner_product.1 _ _ (by intro a ha; fin_cases ha <;> rfl)
      (by intro b hb; fin_cases hb <;> rfl) rfl
  · exact c5_inner_product.2 _ "a" "b" "c" "d" "e" "f" 1 2 3 4 5 6
      rfl rfl rfl rfl rfl rfl 0

/-- C6: constructing a tensor from zero elements fails with the
empty-tensor assertion; constructing from (coercible) elements of
differing shapes fails with the shape-mismatch assertion; and every
successfully constructed tensor is nonempty and shape-homogeneous. -/
theorem c6_tensor_construction :
    mkTensor [] = .error (.assertionError "cannot create empty tensor")
    ∧ (∀ (vals : List PyVal) (es : List Expr),
        expressList vals = .ok (es.map .expr) → es ≠ [] →
        ¬ (∀ e ∈ es, shape e = shape (es.headD (.Number 0))) →
        mkTensor vals = .error (.assertionError "tensor components must be same shape"))
    ∧ (∀ vals t, mkTensor vals = .ok t →
        ∃ es, t = .Tensor es ∧ es ≠ []
          ∧ ∀ e ∈ es, shape e = shape (es.headD (.Number 0))) := by
  refine ⟨rfl, ?_, ?_⟩
  · intro vals es hc hne hsh
    cases es with
    | nil => exact absurd rfl hne
    | cons e0 rest =>
        have hr : asExprList (rest.map PyVal.expr) = .ok rest := asExprList_map_expr rest
        have hall : (rest.all fun e => shape e == shape e0) = false := by
          cases h : rest.all fun e => shape e == shape e0
          · rfl
          · exfalso
            refine hsh ?_
            intro e he
            rcases List.mem_cons.mp he with rfl | he'
            · rfl
            · have := (List.all_eq_true.mp h) e he'
              simpa [List.headD] using beq_iff_eq.mp (by simpa using this)
        simp [mkTensor, hc, mkTensorChecks, asExprPy, hr, hall, bind, Except.bind]
  · intro vals t h
    cases hc : expressList vals with
    | error err => simp [mkTensor, hc, bind, Except.bind] at h
    | ok c =>
        have : mkTensorChecks c = .ok t := by
          simpa [mkTensor, hc, bind, Except.bind] using h
        exact mkTensorChecks_ok this

/-- C6 witness: `Tensor([1, [2]])` mixes a scalar and a vector element
and is rejected by the shape assertion. -/
theorem c6_tensor_construction_witness :
    (expressList [PyVal.int 1, PyVal.list [PyVal.int 2]]
        = .ok ([Expr.Number 1, Expr.Tensor [Expr.Number 2]].map PyVal.expr))
    ∧ ([Expr.Number 1, Expr.Tensor [Expr.Number 2]] : List Expr) ≠ []
    ∧ ¬ (∀ e ∈ ([Expr.Number 1, Expr.Tensor [Expr.Number 2]] : List Expr),
          shape e = shape (([Expr.Number 1, Expr.Tensor [Expr.Number 2]] : List Expr).headD (.Number 0)))
    ∧ mkTensor [PyVal.int 1, PyVal.list [PyVal.int 2]]
        = .error (.assertionError "tensor components must be same shape") := by
  have h1 : expressList [PyVal.int 1, PyVal.list [PyVal.int 2]]
      = .ok ([Expr.Number 1, Expr.Tensor [Expr.Number 2]].map PyVal.expr) := by
    simp [expressList, expressDef, mkTensorChecks, asExprPy, asExprList, shape,
      bind, Except.bind]
  have h3 : ¬ (∀ e ∈ ([Expr.Number 1, Expr.Tensor [Expr.Number 2]] : List Expr),
      shape e = shape (([Expr.Number 1, Expr.Tensor [Expr.Number 2]] : List Expr).headD (.Number 0))) := by
    intro hall
    have := hall (Expr.Tensor [Expr.Number 2]) (by simp)
    simp [shape, List.headD] at this
  exact ⟨h1, by simp, h3,
    c6_tensor_construction.2.1 _ _ h1 (by simp) h3⟩

/-- C7: the coercion on each host-value category, in the source's
priority order: a node is returned unchanged; a list/tuple becomes a
Tensor of coerced elements; a one-token string becomes a Symbol; a
multi-token string becomes a Python list of Symbols (not a node); a
numeric scalar becomes a Number; anything else — here `None` and a NumPy
array — raises the unsupported-type error. -/
theorem c7_express_cases :
    (∀ e : Expr, expressDef (.expr e) = .ok (.expr e))
    ∧ (∀ l : List PyVal,
        expressDef (.list l) = (expressList l >>= mkTensorChecks).map .expr)
    ∧ (∀ s t, pyTokens s = [t] → expressDef (.str s) = .ok (.expr (.Symbol t)))
    ∧ (∀ s, 1 < (pyTokens s).length →
        expressDef (.str s)
          = .ok (.list ((pyTokens s).map fun t => .expr (.Symbol t))))
    ∧ (∀ n : Int, expressDef (.int n) = .ok (.expr (.Number n)))
    ∧ expressDef .pyNone = .error .typeError
    ∧ (∀ a, expressDef (.arr a) = .error .typeError) := by
  refine ⟨fun e => rfl, fun l => ?_, fun s t h => ?_, fun s h => ?_,
    fun n => rfl, rfl, fun a => rfl⟩
  · cases hc : expressList l with
    | error e =>
        simp [expressDef, hc, bind, Except.bind, Except.map]
    | ok c =>
        cases ht : mkTensorChecks c <;>
          simp [expressDef, hc, ht, bind, Except.bind, Except.map]
  · simp [expressDef, h]
  · simp [expressDef, h]

/-- C7 witness at the strings `ab` and `a b`. -/
theorem c7_express_cases_witness :
    (pyTokens "ab" = ["ab"] ∧ expressDef (.str "ab") = .ok (.expr (.Symbol "ab")))
    ∧ (1 < (pyTokens "a b").length ∧ expressDef (.str "a b")
        = .ok (.list [.expr (.Symbol "a"), .expr (.Symbol "b")])) := by
  constructor
  · exact ⟨by decide, c7_express_cases.2.2.1 "ab" "ab" (by decide)⟩
  · refine ⟨by decide, ?_⟩
    have h := c7_express_cases.2.2.2.1 "a b" (by decide)
    have ht : pyTokens "a b" = ["a", "b"] := by decide
    rw [ht] at h
    simpa using h

/-- C9 counterexample: a bare `Derivative` is a non-Tensor expression
and `Number(1)` passes the `== 1` test, yet multiplying the bare
`Derivative` by it does not return the bare `Derivative`: the overridden
multiplication attaches the operand as the derivative's argument
instead. -/
theorem c9_bare_derivative_counterexample :
    isTensor (.Derivative (.Symbol "x") none) = false
    ∧ eqInt (.Number 1) 1 = true
    ∧ hmul (.Derivative (.Symbol "x") none) (.Number 1)
        = .ok (.Derivative (.Symbol "x") (some (.Number 1))) := by
  refine ⟨rfl, rfl, ?_⟩
  simp [hmul]

/-- C9 (amended): identity elimination at construction time for every
non-Tensor expression `e`: adding a node equal to 0 returns `e` itself,
negating a node equal to 0 returns it unchanged, and — provided `e` is
not a bare `Derivative`, whose overridden multiplication attaches the
operand instead — multiplying `e` by a node equal to 1 returns `e` and
multiplying by a node equal to 0 returns that zero operand. -/
theorem c9_identity_elimination (e z u : Expr) (he : isTensor e = false)
    (hz : eqInt z 0 = true) (hu : eqInt u 1 = true) :
    hadd e z = .ok e ∧ hneg z = .ok z
    ∧ (isBareDeriv e = false → hmul e u = .ok e ∧ hmul e z = .ok z) := by
  have hzc : z = .Number 0 ∨ z = .hostNum 0 := by
    cases z <;> simp_all [eqInt]
  have huc : u = .Number 1 ∨ u = .hostNum 1 := by
    cases u <;> simp_all [eqInt]
  refine ⟨?_, ?_, fun hb => ⟨?_, ?_⟩⟩
  · rcases hzc with h | h <;> subst h <;>
      cases e <;> simp_all [hadd, eqInt, isTensor]
  · rcases hzc with h | h <;> subst h <;> simp [hneg, eqInt]
  · rcases huc with h | h <;> subst h <;>
      rcases e with v | s | a | l | l | ⟨w, _ | x⟩ | l | n <;>
      simp_all [hmul, eqInt, isTensor, isBareDeriv]
  · rcases hzc with h | h <;> subst h <;>
      rcases e with v | s | a | l | l | ⟨w, _ | x⟩ | l | n <;>
      simp_all [hmul, eqInt, isTensor, isBareDeriv]

/-- C9 witness at `e = Symbol x`, `z = Number 0`, `u = Number 1`. -/
theorem c9_identity_elimination_witness :
    isTensor (.Symbol "x") = false ∧ eqInt (.Number 0) 0 = true
    ∧ eqInt (.Number 1) 1 = true
    ∧ hadd (.Symbol "x") (.Number 0) = .ok (.Symbol "x")
    ∧ hneg (.Number 0) = .ok (.Number 0)
    ∧ hmul (.Symbol "x") (.Number 1) = .ok (.Symbol "x")
    ∧ hmul (.Symbol "x") (.Number 0) = .ok (.Number 0) := by
  have h := c9_identity_elimination (.Symbol "x") (.Number 0) (.Number 1) rfl rfl rfl
  exact ⟨rfl, rfl, rfl, h.1, h.2.1, (h.2.2 rfl).1, (h.2.2 rfl).2⟩

/-- C10: coercing a string whose whitespace split yields no tokens (the
empty string, an all-whitespace string) falls through the string branch
and raises the very `TypeError` used for unrecognized input types,
never returning a node or a list. -/
theorem c10_express_tokenless_string (s : String) (h : pyTokens s = []) :
    expressDef (.str s) = .error .typeError
    ∧ expressDef .pyNone = .error .typeError := by
  refine ⟨?_, rfl⟩
  simp [expressDef, h]

/-- C10 witness at `""` and `"  "`. -/
theorem c10_express_tokenless_string_witness :
    (pyTokens "" = [] ∧ expressDef (.str "") = .error .typeError)
    ∧ (pyTokens "  " = [] ∧ expressDef (.str "  ") = .error .typeError) :=
  ⟨⟨by decide, (c10_express_tokenless_string "" (by decide)).1⟩,
   ⟨by decide, (c10_express_tokenless_string "  " (by decide)).1⟩⟩

variable {α : Type}

lemma any_isEmpty_false {rows : List (List α)} (h : ∀ r ∈ rows, r ≠ []) :
    rows.any List.isEmpty = false := by
  rw [List.any_eq_false]
  intro r hr
  simpa [List.isEmpty_iff] using h r hr

lemma pyZip_cons_heads {rows : List (List α)} (hne : rows ≠ [])
    (h : ∀ r ∈ rows, r ≠ []) :
    pyZip rows = rows.filterMap List.head? :: pyZip (rows.map List.tail) := by
  cases rows with
  | nil => exact absurd rfl hne
  | cons r0 rest =>
      cases r0 with
      | nil => exact absurd rfl (h [] (by simp))
      | cons y ys =>
          have hra : rest.any List.isEmpty = false :=
            any_isEmpty_false fun r hr => h r (by simp [hr])
          simp [pyZip, pyZipGo, hra, List.filterMap_cons]

lemma heads_zipWith_cons : ∀ (xs : List α) (Cs : List (List α)),
    xs.length = Cs.length →
    (List.zipWith List.cons xs Cs).filterMap List.head? = xs := by
  intro xs
  induction xs with
  | nil => intro Cs _; simp
  | cons x xs ih =>
      intro Cs hl
      cases Cs with
      | nil => simp at hl
      | cons c cs =>
          simp only [List.zipWith_cons_cons, List.filterMap_cons, List.head?]
          simp [ih cs (by simpa using hl)]

lemma tails_zipWith_cons : ∀ (xs : List α) (Cs : List (List α)),
    xs.length = Cs.length →
    (List.zipWith List.cons xs Cs).map List.tail = Cs := by
  intro xs
  induction xs with
  | nil =>
      intro Cs hl
      cases Cs with
      | nil => simp
      | cons c cs => simp at hl
  | cons x xs ih =>
      intro Cs hl
      cases Cs with
      | nil => simp at hl
      | cons c cs => simp [ih cs (by simpa using hl)]

lemma zipWith_cons_any_isEmpty (xs : List α) (Cs : List (List α)) :
    (List.zipWith List.cons xs Cs).any List.isEmpty = false := by
  rw [List.any_eq_false]
  intro r hr
  rw [List.mem_iff_getElem] at hr
  obtain ⟨i, hlt, hi⟩ := hr
  rw [List.getElem_zipWith] at hi
  simp [← hi]


variable {α : Type}

lemma pyZip_zipWith_cons (r : List α) (C : List (List α)) (hne : r ≠ [])
    (hl : r.length = C.length) :
    pyZip (List.zipWith List.cons r C) = r :: pyZip C := by
  cases r with
  | nil => exact absurd rfl hne
  | cons x xs =>
      cases C with
      | nil => simp at hl
      | cons c Cs =>
          have hl' : xs.length = Cs.length := by simpa using hl
          have hh := heads_zipWith_cons xs Cs hl'
          have htl := tails_zipWith_cons xs Cs hl'
          have hany := zipWith_cons_any_isEmpty xs Cs
          cases xs with
          | nil =>
              cases Cs with
              | nil => simp [pyZip, pyZipGo]
              | cons _ _ => simp at hl'
          | cons x2 xs' =>
              cases Cs with
              | nil => simp at hl'
              | cons c2 Cs' =>
                  simp only [List.zipWith_cons_cons] at hh htl hany ⊢
                  simp [pyZip, pyZipGo, hany, hh, htl]
                  exact heads_zipWith_cons xs' Cs' (by simpa using hl')

lemma pyZipGo_eq_zipWith : ∀ (r : List α) (rest : List (List α)), rest ≠ [] →
    (∀ row ∈ rest, row.length = r.length) →
    pyZipGo r rest = List.zipWith List.cons r (pyZip rest) := by
  intro r
  induction r with
  | nil => intro rest _ _; simp [pyZipGo]
  | cons x xs ih =>
      intro rest hne hlen
      have hnonempty : ∀ row ∈ rest, row ≠ [] := by
        intro row hrow h0
        have := hlen row hrow
        simp [h0] at this
      have hra : rest.any List.isEmpty = false := any_isEmpty_false hnonempty
      have hmapne : rest.map List.tail ≠ [] := fun h0 => hne (by simpa using h0)
      have hmaplen : ∀ row ∈ rest.map List.tail, row.length = xs.length := by
        intro row hrow
        rw [List.mem_map] at hrow
        obtain ⟨row0, hrow0, rfl⟩ := hrow
        have := hlen row0 hrow0
        simp [List.length_tail, this]
      rw [pyZipGo]
      simp only [hra, Bool.false_eq_true, if_false]
      rw [pyZip_cons_heads hne hnonempty, List.zipWith_cons_cons]
      congr 1
      exact ih _ hmapne hmaplen


variable {α : Type}

lemma pyZipGo_nil_rest : ∀ r : List α, pyZipGo r [] = r.map fun x => [x] := by
  intro r
  induction r with
  | nil => rfl
  | cons x xs ih => simp [pyZipGo, ih]

lemma map_singleton_eq_zipWith (r : List α) :
    (r.map fun x => [x]) = List.zipWith List.cons r (List.replicate r.length []) := by
  induction r with
  | nil => rfl
  | cons x xs ih => simp [List.replicate, ih]

lemma pyZip_replicate_nil (k : Nat) :
    pyZip (List.replicate k ([] : List α)) = [] := by
  cases k with
  | zero => rfl
  | succ m => simp [List.replicate, pyZip, pyZipGo]

lemma pyZip_length : ∀ (n : Nat) (rows : List (List α)), rows ≠ [] →
    (∀ r ∈ rows, r.length = n) → (pyZip rows).length = n := by
  intro n
  induction n with
  | zero =>
      intro rows hne hlen
      cases rows with
      | nil => exact absurd rfl hne
      | cons r rest =>
          have : r = [] := List.length_eq_zero.mp (hlen r (by simp))
          subst this
          simp [pyZip, pyZipGo]
  | succ k ih =>
      intro rows hne hlen
      have hnonempty : ∀ r ∈ rows, r ≠ [] := by
        intro r hr h0
        have := hlen r hr
        simp [h0] at this
      rw [pyZip_cons_heads hne hnonempty]
      have hmapne : rows.map List.tail ≠ [] := fun h0 => hne (by simpa using h0)
      have hmaplen : ∀ r ∈ rows.map List.tail, r.length = k := by
        intro r hr
        rw [List.mem_map] at hr
        obtain ⟨r0, hr0, rfl⟩ := hr
        simp [List.length_tail, hlen r0 hr0]
      simp [ih _ hmapne hmaplen]

/-- `zip(*)` is an involution on nonempty rectangular row lists. -/
lemma pyZip_involution : ∀ (rows : List (List α)) (n : Nat), 0 < n →
    (∀ r ∈ rows, r.length = n) → pyZip (pyZip rows) = rows := by
  intro rows
  induction rows with
  | nil => intro n _ _; rfl
  | cons r rest ih =>
      intro n hn hlen
      have hrne : r ≠ [] := by
        intro h0
        have := hlen r (by simp)
        simp [h0] at this
        omega
      cases rest with
      | nil =>
          rw [show pyZip [r] = pyZipGo r [] from rfl, pyZipGo_nil_rest,
            map_singleton_eq_zipWith,
            pyZip_zipWith_cons r _ hrne (by simp),
            pyZip_replicate_nil]
      | cons r2 rest' =>
          have hrestne : (r2 :: rest') ≠ [] := by simp
          have hrestlen : ∀ row ∈ r2 :: rest', row.length = r.length := by
            intro row hrow
            rw [hlen row (by simp [hrow]), hlen r (by simp)]
          rw [show pyZip (r :: r2 :: rest') = pyZipGo r (r2 :: rest') from rfl,
            pyZipGo_eq_zipWith r _ hrestne hrestlen,
            pyZip_zipWith_cons r _ hrne ?hlen2,
            ih n hn (fun row hrow => hlen row (by simp [hrow]))]
          case hlen2 =>
            rw [hlen r (by simp),
              pyZip_length n (r2 :: rest') hrestne
                (fun row hrow => hlen row (by simp [hrow]))]


variable {α : Type}

lemma filterMap_head?_length : ∀ (rows : List (List α)), (∀ r ∈ rows, r ≠ []) →
    (rows.filterMap List.head?).length = rows.length := by
  intro rows
  induction rows with
  | nil => intro _; rfl
  | cons r rest ih =>
      intro h
      cases r with
      | nil => exact absurd rfl (h [] (by simp))
      | cons x xs =>
          simp only [List.filterMap_cons, List.head?]
          simp [ih fun r hr => h r (by simp [hr])]

lemma mem_filterMap_head? {x : α} {rows : List (List α)}
    (h : x ∈ rows.filterMap List.head?) : ∃ r ∈ rows, x ∈ r := by
  rw [List.mem_filterMap] at h
  obtain ⟨r, hr, hh⟩ := h
  cases r with
  | nil => simp at hh
  | cons y ys =>
      refine ⟨y :: ys, hr, ?_⟩
      simp only [List.head?] at hh
      simp [Option.some_inj.mp hh]

lemma pyZip_col_length : ∀ (n : Nat) (rows : List (List α)),
    (∀ r ∈ rows, r.length = n) → ∀ c ∈ pyZip rows, c.length = rows.length := by
  intro n
  induction n with
  | zero =>
      intro rows hlen c hc
      cases rows with
      | nil => simp [pyZip] at hc
      | cons r rest =>
          have : r = [] := List.length_eq_zero.mp (hlen r (by simp))
          subst this
          simp [pyZip, pyZipGo] at hc
  | succ k ih =>
      intro rows hlen c hc
      cases hrows : rows with
      | nil => subst hrows; simp [pyZip] at hc
      | cons r rest =>
          subst hrows
          have hnonempty : ∀ w ∈ r :: rest, w ≠ [] := by
            intro r0 hr0 h0
            have := hlen r0 hr0
            simp [h0] at this
          rw [pyZip_cons_heads (by simp) hnonempty] at hc
          rcases List.mem_cons.mp hc with rfl | hc'
          · exact filterMap_head?_length _ hnonempty
          · have hmaplen : ∀ row ∈ (r :: rest).map List.tail, row.length = k := by
              intro row hrow
              rw [List.mem_map] at hrow
              obtain ⟨r0, hr0, rfl⟩ := hrow
              simp [List.length_tail, hlen r0 hr0]
            have := ih _ hmaplen c hc'
            simpa using this

lemma pyZip_col_mem : ∀ (n : Nat) (rows : List (List α)),
    (∀ r ∈ rows, r.length = n) →
    ∀ c ∈ pyZip rows, ∀ x ∈ c, ∃ r ∈ rows, x ∈ r := by
  intro n
  induction n with
  | zero =>
      intro rows hlen c hc
      cases rows with
      | nil => simp [pyZip] at hc
      | cons r rest =>
          have : r = [] := List.length_eq_zero.mp (hlen r (by simp))
          subst this
          simp [pyZip, pyZipGo] at hc
  | succ k ih =>
      intro rows hlen c hc x hx
      cases hrows : rows with
      | nil => subst hrows; simp [pyZip] at hc
      | cons r rest =>
          subst hrows
          have hnonempty : ∀ w ∈ r :: rest, w ≠ [] := by
            intro r0 hr0 h0
            have := hlen r0 hr0
            simp [h0] at this
          rw [pyZip_cons_heads (by simp) hnonempty] at hc
          rcases List.mem_cons.mp hc with rfl | hc'
          · exact mem_filterMap_head? hx
          · have hmaplen : ∀ row ∈ (r :: rest).map List.tail, row.length = k := by
              intro row hrow
              rw [List.mem_map] at hrow
              obtain ⟨r0, hr0, rfl⟩ := hrow
              simp [List.length_tail, hlen r0 hr0]
            obtain ⟨r', hr', hx'⟩ := ih _ hmaplen c hc' x hx
            rw [List.mem_map] at hr'
            obtain ⟨r0, hr0, rfl⟩ := hr'
            exact ⟨r0, hr0, List.mem_of_mem_tail hx'⟩



lemma shape_of_order_zero {e : Expr} (h : order e = 0) : shape e = [] := by
  cases e <;>
    first
    | rfl
    | (rename_i as; cases as <;> simp [order] at h)

lemma iterList_map_tensor (rows : List (List Expr)) :
    iterList (rows.map .Tensor) = .ok rows := by
  induction rows with
  | nil => rfl
  | cons r rest ih => simp [iterList, iterArgs, ih, bind, Except.bind]

lemma expressList_map_expr (l : List Expr) :
    expressList (l.map PyVal.expr) = .ok (l.map PyVal.expr) := by
  induction l with
  | nil => rfl
  | cons a as ih => simp [expressList, expressDef, ih, bind, Except.bind]

lemma mkTensorChecks_exprs {l : List Expr} (hne : l ≠ [])
    (hsh : ∀ e ∈ l, shape e = shape (l.headD (.Number 0))) :
    mkTensorChecks (l.map .expr) = .ok (.Tensor l) := by
  cases l with
  | nil => exact absurd rfl hne
  | cons e0 es =>
      have hall : (es.all fun e => shape e == shape e0) = true := by
        rw [List.all_eq_true]
        intro e he
        have := hsh e (by simp [he])
        simp [List.headD] at this
        simp [this]
      simp [mkTensorChecks, asExprPy, asExprList_map_expr, hall, bind, Except.bind]

lemma mkTensorChecks_scalar_row {c : List Expr} (hne : c ≠ [])
    (h : ∀ x ∈ c, order x = 0) :
    mkTensorChecks (c.map .expr) = .ok (.Tensor c) := by
  refine mkTensorChecks_exprs hne ?_
  intro e he
  rw [shape_of_order_zero (h e he)]
  cases c with
  | nil => simp at he
  | cons x0 cs =>
      simp [List.headD, shape_of_order_zero (h x0 (by simp))]

lemma express_scalar_row {c : List Expr} (hne : c ≠ [])
    (h : ∀ x ∈ c, order x = 0) :
    expressDef (.list (c.map .expr)) = .ok (.expr (.Tensor c)) := by
  simp [expressDef, expressList_map_expr, mkTensorChecks_scalar_row hne h,
    bind, Except.bind]

lemma expressList_cols : ∀ (cols : List (List Expr)),
    (∀ c ∈ cols, c ≠ []) → (∀ c ∈ cols, ∀ x ∈ c, order x = 0) →
    expressList (cols.map fun c => .list (c.map .expr))
      = .ok (cols.map fun c => .expr (.Tensor c)) := by
  intro cols
  induction cols with
  | nil => intro _ _; rfl
  | cons c cs ih =>
      intro hne h
      simp only [List.map_cons, expressList,
        express_scalar_row (hne c (by simp)) (h c (by simp)),
        ih (fun w hw => hne w (by simp [hw])) (fun w hw => h w (by simp [hw])),
        bind, Except.bind]

lemma mkTensorChecks_tensor_rows {cols : List (List Expr)} {m : Nat}
    (hne : cols ≠ []) (hm : 0 < m) (hlen : ∀ c ∈ cols, c.length = m)
    (helem : ∀ c ∈ cols, ∀ x ∈ c, order x = 0) :
    mkTensorChecks (cols.map fun c => .expr (.Tensor c))
      = .ok (.Tensor (cols.map .Tensor)) := by
  have hshape : ∀ c ∈ cols, shape (.Tensor c) = [m] := by
    intro c hc
    cases c with
    | nil =>
        have := hlen [] hc
        simp at this
        omega
    | cons x xs =>
        simp [shape, shape_of_order_zero (helem _ hc x (by simp)), ← hlen _ hc]
  have hmap : (cols.map fun c => PyVal.expr (.Tensor c))
      = ((cols.map Expr.Tensor).map PyVal.expr) := by
    simp [List.map_map, Function.comp]
  rw [hmap]
  refine mkTensorChecks_exprs (by simpa using hne) ?_
  intro e he
  rw [List.mem_map] at he
  obtain ⟨c, hc, rfl⟩ := he
  rw [hshape c hc]
  cases cols with
  | nil => exact absurd rfl hne
  | cons c0 cs => simp [List.headD, hshape c0 (by simp)]



/-- For a rectangular matrix of scalar nodes, `T` is the tensor of
`pyZip` columns. -/
lemma transP_matrix (rows : List (List Expr)) (n : Nat) (hn : 0 < n)
    (hne : rows ≠ []) (hlen : ∀ r ∈ rows, r.length = n)
    (helem : ∀ r ∈ rows, ∀ x ∈ r, order x = 0) :
    transP (.Tensor (rows.map .Tensor)) = .ok (.Tensor ((pyZip rows).map .Tensor)) := by
  have horder : order (.Tensor (rows.map .Tensor)) = 2 := by
    cases rows with
    | nil => exact absurd rfl hne
    | cons r rest =>
        cases r with
        | nil =>
            have := hlen [] (by simp)
            simp at this
            omega
        | cons x xs =>
            have hx0 : order x = 0 := helem (x :: xs) (by simp) x (by simp)
            simp [order, hx0]
  have hcols_len : ∀ c ∈ pyZip rows, c.length = rows.length :=
    pyZip_col_length n rows hlen
  have hcols_ne : ∀ c ∈ pyZip rows, c ≠ [] := by
    intro c hc h0
    have := hcols_len c hc
    rw [h0] at this
    cases rows with
    | nil => exact hne rfl
    | cons _ _ => simp at this
  have hcols_elem : ∀ c ∈ pyZip rows, ∀ x ∈ c, order x = 0 := by
    intro c hc x hx
    obtain ⟨r, hr, hxr⟩ := pyZip_col_mem n rows hlen c hc x hx
    exact helem r hr x hxr
  have hzne : pyZip rows ≠ [] := by
    have := pyZip_length n rows hne hlen
    intro h0
    rw [h0] at this
    simp at this
    omega
  have hm : 0 < rows.length := by
    cases rows with
    | nil => exact absurd rfl hne
    | cons _ _ => simp
  have hexp : expressList ((pyZip rows).map fun c => .list (c.map .expr))
      = .ok ((pyZip rows).map fun c => .expr (.Tensor c)) :=
    expressList_cols _ hcols_ne hcols_elem
  have hchk := mkTensorChecks_tensor_rows hzne hm hcols_len hcols_elem
  simp [transP, horder, iterList_map_tensor, mkTensor, hexp, hchk, bind, Except.bind]

/-- C8: transpose is its own inverse on matrices.  For every
constructible order-2 tensor (a nonempty list of equal-length nonempty
rows of scalar nodes), applying `.T` twice returns the very same tensor,
so evaluating `T.T.T` under any binding set — with any recursion
budget — gives exactly the result of evaluating `T`. -/
theorem c8_transpose_involution (rows : List (List Expr)) (n : Nat) (hn : 0 < n)
    (hne : rows ≠ []) (hlen : ∀ r ∈ rows, r.length = n)
    (helem : ∀ r ∈ rows, ∀ x ∈ r, order x = 0) :
    (do
      let t1 ← transP (.Tensor (rows.map .Tensor))
      transP t1) = .ok (.Tensor (rows.map .Tensor))
    ∧ ∀ (fuel : Nat) (vars : Bindings),
        exceptEval (do
          let t1 ← transP (.Tensor (rows.map .Tensor))
          transP t1) fuel vars
        = evalF fuel (.Tensor (rows.map .Tensor)) vars := by
  have h1 := transP_matrix rows n hn hne hlen helem
  have hcols_len : ∀ c ∈ pyZip rows, c.length = rows.length :=
    pyZip_col_length n rows hlen
  have hcols_elem : ∀ c ∈ pyZip rows, ∀ x ∈ c, order x = 0 := by
    intro c hc x hx
    obtain ⟨r, hr, hxr⟩ := pyZip_col_mem n rows hlen c hc x hx
    exact helem r hr x hxr
  have hzne : pyZip rows ≠ [] := by
    have := pyZip_length n rows hne hlen
    intro h0
    rw [h0] at this
    simp at this
    omega
  have hm : 0 < rows.length := by
    cases rows with
    | nil => exact absurd rfl hne
    | cons _ _ => simp
  have h2 := transP_matrix (pyZip rows) rows.length hm hzne hcols_len hcols_elem
  rw [pyZip_involution rows n hn hlen] at h2
  have hdo : (do
      let t1 ← transP (.Tensor (rows.map .Tensor))
      transP t1) = .ok (.Tensor (rows.map .Tensor)) := by
    rw [show (do
        let t1 ← transP (.Tensor (rows.map .Tensor))
        transP t1) = transP (.Tensor (rows.map .Tensor)) >>= transP from rfl,
      h1]
    simpa [bind, Except.bind] using h2
  exact ⟨hdo, fun fuel vars => by rw [hdo]; rfl⟩

/-- C8 witness at the 2×2 symbol matrix `[[a, b], [c, d]]`. -/
theorem c8_transpose_involution_witness :
    (0 : Nat) < 2
    ∧ ([[Expr.Symbol "a", Expr.Symbol "b"],
        [Expr.Symbol "c", Expr.Symbol "d"]] : List (List Expr)) ≠ []
    ∧ (do
        let t1 ← transP (.Tensor [.Tensor [.Symbol "a", .Symbol "b"],
                                  .Tensor [.Symbol "c", .Symbol "d"]])
        transP t1)
      = .ok (.Tensor [.Tensor [.Symbol "a", .Symbol "b"],
                      .Tensor [.Symbol "c", .Symbol "d"]]) := by
  refine ⟨by decide, by simp, ?_⟩
  exact (c8_transpose_involution
    [[Expr.Symbol "a", Expr.Symbol "b"], [Expr.Symbol "c", Expr.Symbol "d"]] 2
    (by decide) (by simp)
    (by intro r hr; fin_cases hr <;> rfl)
    (by intro r hr; fin_cases hr <;> (intro x hx; fin_cases hx <;> rfl))).1

end Express
